import Mathlib

/-!
Shallow embedding of the java-gen code-context retrieval engine, together
with proofs checking the natural-language specification against it.

The definitions below are translated from the Python sources:
  missing_core_files.py          (trim_code_context, find_method_end,
                                  result organization of the basic extractor)
  corrected_smart_extraction.py  (calculate_enhanced_path_score,
                                  calculate_tiebreaking_score)
  minimal-score-propagation.py   (propagate_scores_to_callees)
  complete_java_extractor_function.py (seed selection with MEDIUM backfill,
                                  resolve_content_conflicts)
  optimized_java_extractor.py    (calculate_method_relevance_score,
                                  the 50-method cap, organize_results_by_relevance)

Python dicts are modelled as insertion-ordered association lists; Python
sets whose iteration order the program observes are modelled by an explicit
enumeration-order parameter.  Stable `list.sort(key=..)` is modelled by
`List.insertionSort`, which is stable for total preorders.
-/

namespace JavaGen

/-! ### Generic string helpers (Python `in`, `startswith`, `strip`, `lower`) -/

/-- Boolean test that `pat` is a prefix of `s` (both as char lists). -/
def startsWithChars : List Char → List Char → Bool
  | [], _ => true
  | _ :: _, [] => false
  | a :: as, b :: bs => a == b && startsWithChars as bs

/-- Boolean test that `pat` occurs as a contiguous substring of `s`
(Python `pat in s`; the empty pattern occurs everywhere). -/
def containsChars (pat : List Char) : List Char → Bool
  | [] => startsWithChars pat []
  | c :: cs => startsWithChars pat (c :: cs) || containsChars pat cs

/-- Python `pat in s` on strings. -/
def strContains (s pat : String) : Bool :=
  containsChars pat.data s.data

/-- Python `s.startswith(pat)` on strings. -/
def strStarts (s pat : String) : Bool :=
  startsWithChars pat.data s.data

/-- Python `s.lower()` (ASCII), defined structurally so that it computes
by kernel reduction (`String.toLower` is defined by well-founded recursion). -/
def strLower (s : String) : String :=
  ⟨s.data.map Char.toLower⟩

/-- Concatenation of a list of strings (Python `"".join`). -/
def concatAll : List String → String
  | [] => ""
  | s :: rest => s ++ concatAll rest

theorem concatAll_length (l : List String) :
    (concatAll l).length = (l.map String.length).sum := by
  induction l with
  | nil => rfl
  | cons s rest ih => simp [concatAll, String.length_append, ih]

/-! ### `trim_code_context` (missing_core_files.py, lines 313-359)

`snippets_by_file` is a Python dict `file -> [snippet]`; we model it as an
insertion-ordered list of pairs. -/

/-- Priority assignment of `trim_code_context`: default 3; validation-style
keywords give 1, access modifiers give 2; seed markers force 1. -/
def snippetPriority (snippet : String) : Nat :=
  let sl := strLower snippet
  let p :=
    if ["xpath", "field", "validate", "check"].any (fun k => strContains sl k) then 1
    else if ["public", "private", "protected"].any (fun k => strContains sl k) then 2
    else 3
  if strContains snippet "[SEED]" || strContains snippet "CONTAINS KEYWORDS" then 1 else p

/-- Build the `(priority, file, snippet)` triples in dict/list order. -/
def rankedSnippets (sbf : List (String × List String)) :
    List (Nat × String × String) :=
  (sbf.map (fun fs => fs.2.map (fun sn => (snippetPriority sn, fs.1, sn)))).flatten

/-- Ordering used by `ranked_snippets.sort(key=lambda x: x[0])`. -/
def rankLe (a b : Nat × String × String) : Prop := a.1 ≤ b.1

instance : DecidableRel rankLe := fun a b => Nat.decLe a.1 b.1

instance : IsTotal (Nat × String × String) rankLe :=
  ⟨fun a b => Nat.le_total a.1 b.1⟩

instance : IsTrans (Nat × String × String) rankLe :=
  ⟨fun _ _ _ h h' => Nat.le_trans h h'⟩

/-- Stable ascending sort by priority (Python `list.sort` is stable). -/
def rankedSorted (sbf : List (String × List String)) :
    List (Nat × String × String) :=
  List.insertionSort rankLe (rankedSnippets sbf)

/-- The serialized chunk for one ranked snippet. -/
def trimChunk (fpath snippet : String) : String :=
  "\nFile: " ++ fpath ++ "\n--- Relevant Method ---\n" ++ snippet ++ "\n"

/-- The chunk list of `trim_code_context`, in emission order. -/
def trimChunks (sbf : List (String × List String)) : List String :=
  (rankedSorted sbf).map (fun t => trimChunk t.2.1 t.2.2)

/-- The greedy packing loop: keep appending chunks while the running total
stays within `maxChars`; the first overflowing chunk breaks the loop. -/
def greedyPack (maxChars : Nat) : List String → Nat → List String
  | [], _ => []
  | c :: rest, total =>
    if total + c.length > maxChars then []
    else c :: greedyPack maxChars rest (total + c.length)

/-- `trim_code_context` from missing_core_files.py. -/
def trim_code_context (sbf : List (String × List String)) (maxChars : Nat) : String :=
  if sbf.isEmpty then ""
  else concatAll (greedyPack maxChars (trimChunks sbf) 0)

/-- The `included_count` reported by `trim_code_context`. -/
def trimIncludedCount (sbf : List (String × List String)) (maxChars : Nat) : Nat :=
  if sbf.isEmpty then 0
  else (greedyPack maxChars (trimChunks sbf) 0).length

theorem greedyPack_total_le (maxChars : Nat) (chunks : List String) :
    ∀ total, total ≤ maxChars →
      total + (concatAll (greedyPack maxChars chunks total)).length ≤ maxChars := by
  induction chunks with
  | nil => intro total h; simpa [greedyPack, concatAll] using h
  | cons c rest ih =>
    intro total h
    by_cases hov : total + c.length > maxChars
    · simp [greedyPack, hov, concatAll]; exact h
    · have hle : total + c.length ≤ maxChars := Nat.le_of_not_lt hov
      have := ih (total + c.length) hle
      simp only [greedyPack, hov, if_false, concatAll, String.length_append]
      omega

/-- The greedy loop emits a prefix of the chunk list: everything before the
first overflow, dropping that chunk and all later ones. -/
theorem greedyPack_is_maximal_prefix (maxChars : Nat) (chunks : List String) :
    ∀ total, total ≤ maxChars →
      ∃ k, greedyPack maxChars chunks total = chunks.take k ∧
        total + ((chunks.take k).map String.length).sum ≤ maxChars ∧
        (k < chunks.length →
          maxChars < total + ((chunks.take (k + 1)).map String.length).sum) := by
  induction chunks with
  | nil =>
    intro total h
    exact ⟨0, by simp [greedyPack], by simpa using h, by simp⟩
  | cons c rest ih =>
    intro total h
    by_cases hov : total + c.length > maxChars
    · refine ⟨0, by simp [greedyPack, hov], by simpa using h, ?_⟩
      intro _
      simpa using hov
    · have hle : total + c.length ≤ maxChars := Nat.le_of_not_lt hov
      obtain ⟨k, hk, hsum, hmax⟩ := ih (total + c.length) hle
      refine ⟨k + 1, ?_, ?_, ?_⟩
      · simp [greedyPack, hov, hk]
      · simpa [List.take, Nat.add_assoc] using hsum
      · intro hlt
        have hklt : k < rest.length := by
          simpa [List.length_cons] using Nat.lt_of_succ_lt_succ hlt
        have h2 := hmax hklt
        simp only [List.take, List.map, List.sum_cons] at h2 ⊢
        omega

/-- C1: The assembled context never exceeds the character budget; the empty
collection yields the empty string; entries are emitted in ascending
priority-rank order (the ranked list is sorted); the emitted chunks are the
greedy prefix of the ranked list, the first overflowing entry being dropped
together with everything after it; and when the budget is below the single
highest-priority chunk the output is empty with an included count of 0. -/
theorem C1_trim_code_context_budget :
    (∀ sbf maxChars, (trim_code_context sbf maxChars).length ≤ maxChars) ∧
    (∀ maxChars, trim_code_context [] maxChars = "") ∧
    (∀ sbf, (rankedSorted sbf).Sorted rankLe) ∧
    (∀ sbf maxChars, ∃ k,
        greedyPack maxChars (trimChunks sbf) 0 = (trimChunks sbf).take k ∧
        (((trimChunks sbf).take k).map String.length).sum ≤ maxChars ∧
        (k < (trimChunks sbf).length →
          maxChars < (((trimChunks sbf).take (k + 1)).map String.length).sum)) ∧
    (∀ sbf maxChars c cs, trimChunks sbf = c :: cs → maxChars < c.length →
        trim_code_context sbf maxChars = "" ∧ trimIncludedCount sbf maxChars = 0) := by
  refine ⟨?_, ?_, ?_, ?_, ?_⟩
  · intro sbf maxChars
    unfold trim_code_context
    by_cases h : sbf.isEmpty
    · simp [h]
    · have := greedyPack_total_le maxChars (trimChunks sbf) 0 (Nat.zero_le _)
      simp only [Bool.not_eq_true] at h
      simp only [h, Bool.false_eq_true, if_false]
      omega
  · intro maxChars; rfl
  · intro sbf
    exact List.sorted_insertionSort rankLe (rankedSnippets sbf)
  · intro sbf maxChars
    obtain ⟨k, hk, hsum, hmax⟩ :=
      greedyPack_is_maximal_prefix maxChars (trimChunks sbf) 0 (Nat.zero_le _)
    exact ⟨k, hk, by simpa using hsum, fun h => by simpa using hmax h⟩
  · intro sbf maxChars c cs hchunks hlt
    have hne : sbf ≠ [] := by
      intro h
      rw [h] at hchunks
      exact absurd hchunks (by simp [trimChunks, rankedSorted, rankedSnippets])
    have hemp : sbf.isEmpty = false := by
      cases sbf with
      | nil => exact absurd rfl hne
      | cons a l => rfl
    have hpack : greedyPack maxChars (trimChunks sbf) 0 = [] := by
      rw [hchunks]
      simp [greedyPack, hlt]
    constructor
    · unfold trim_code_context
      rw [hemp, if_neg (by simp), hpack]
      rfl
    · unfold trimIncludedCount
      rw [hemp, if_neg (by simp), hpack]
      rfl

/-- Witness for C1: a concrete snippet collection whose single chunk exceeds
the budget of 3 characters yields the empty string and included count 0. -/
theorem C1_trim_code_context_budget_witness :
    trim_code_context [("A.java", ["xs"])] 3 = "" ∧
      trimIncludedCount [("A.java", ["xs"])] 3 = 0 :=
  C1_trim_code_context_budget.2.2.2.2 [("A.java", ["xs"])] 3
    (trimChunk "A.java" "xs") [] (by rfl) (by decide)

/-! ### Path scoring and tiebreaking (corrected_smart_extraction.py) -/

/-- `EnhancedMappingInfo` (target-context descriptor parsed from a filename). -/
structure EnhancedMappingInfo where
  service_name : String
  operation : String
  account_type : Option String
  direction : String
  raw_filename : String

/-- The four critical match flags produced by `calculate_enhanced_path_score`. -/
structure MatchFlags where
  service_match : Bool
  operation_match : Bool
  account_type_match : Bool
  direction_match : Bool

/-- The `service_variations` table (dict lookup with default `[service]`). -/
def serviceVariations (s : String) : List String :=
  if s = "addr" then ["address", "addr"]
  else if s = "acct" then ["account", "acct"]
  else if s = "party" then ["party", "customer"]
  else if s = "beneficiary" then ["beneficiary", "benef"]
  else [s]

/-- `calculate_enhanced_path_score` (corrected_smart_extraction.py, 113-185):
direction +2, direct service +4 plus first matching variation +3,
operation +3, account type +3 when applicable; `account_type_match`
defaults to true when the descriptor has no account type. -/
def calculate_enhanced_path_score (file_path : String) (mi : EnhancedMappingInfo) :
    Nat × MatchFlags :=
  let path_lower := strLower file_path
  let direction_match := strContains path_lower mi.direction
  let score1 := if direction_match then 2 else 0
  let sDirect := mi.service_name != "unknown" && strContains path_lower mi.service_name
  let score2 := if sDirect then score1 + 4 else score1
  let sVar := mi.service_name != "unknown" &&
    (serviceVariations mi.service_name).any (fun v => strContains path_lower v)
  let score3 := if sVar then score2 + 3 else score2
  let service_match := sDirect || sVar
  let operation_match := strContains path_lower mi.operation
  let score4 := if operation_match then score3 + 3 else score3
  match mi.account_type with
  | none => (score4, ⟨service_match, operation_match, true, direction_match⟩)
  | some a =>
    if strContains path_lower a then
      (score4 + 3, ⟨service_match, operation_match, true, direction_match⟩)
    else
      (score4, ⟨service_match, operation_match, false, direction_match⟩)

/-- The critical path score of `calculate_tiebreaking_score`: direction 1,
service 2, operation 1, account type 1. -/
def critical_path_score (f : MatchFlags) : Nat :=
  (if f.direction_match then 1 else 0) + (if f.service_match then 2 else 0) +
    (if f.operation_match then 1 else 0) + (if f.account_type_match then 1 else 0)

/-- Result record of `calculate_tiebreaking_score`. -/
structure TieBreakingScore where
  content_score : Nat
  path_score : Nat
  service_match : Bool
  operation_match : Bool
  account_type_match : Bool
  final_score : Nat
  category : String
  tiebreak_reason : String

/-- `calculate_tiebreaking_score` (corrected_smart_extraction.py, 187-261). -/
def calculate_tiebreaking_score (content_score path_score : Nat) (flags : MatchFlags) :
    TieBreakingScore :=
  let cps := critical_path_score flags
  let base := content_score * 2 + path_score
  let cfr : String × Nat × String :=
    if 12 ≤ content_score ∧ 3 ≤ cps then
      ("HIGH", base + 10, "High content + critical path match")
    else if 12 ≤ content_score ∧ 2 ≤ cps then
      ("MEDIUM", base + 5, "High content + partial path match")
    else if 8 ≤ content_score ∧ 3 ≤ cps then
      ("MEDIUM", base + 3, "Medium content + critical path match")
    else if 12 ≤ content_score then
      ("MEDIUM", base, "High content but path mismatch - content wins")
    else if 6 ≤ content_score ∧ 2 ≤ cps then
      ("LOW", base, "Low content + decent path match")
    else
      ("IGNORE", base, "Insufficient content and path relevance")
  ⟨content_score, path_score, flags.service_match, flags.operation_match,
    flags.account_type_match, cfr.2.1, cfr.1, cfr.2.2⟩

theorem tiebreaking_category_eq (c p : Nat) (f : MatchFlags) :
    (calculate_tiebreaking_score c p f).category =
      (if 12 ≤ c ∧ 3 ≤ critical_path_score f then "HIGH"
       else if 12 ≤ c ∧ 2 ≤ critical_path_score f then "MEDIUM"
       else if 8 ≤ c ∧ 3 ≤ critical_path_score f then "MEDIUM"
       else if 12 ≤ c then "MEDIUM"
       else if 6 ≤ c ∧ 2 ≤ critical_path_score f then "LOW"
       else "IGNORE") := by
  unfold calculate_tiebreaking_score
  dsimp only
  split_ifs <;> rfl

/-- C2: a content score at or above the high threshold 12 never yields
category IGNORE or LOW, and HIGH is assigned only when the critical
structural matches reach a critical path score of at least 3. -/
theorem C2_high_content_demotes_to_medium_at_worst :
    ∀ (content path : Nat) (flags : MatchFlags),
      (12 ≤ content →
        (calculate_tiebreaking_score content path flags).category ≠ "IGNORE" ∧
          (calculate_tiebreaking_score content path flags).category ≠ "LOW") ∧
      ((calculate_tiebreaking_score content path flags).category = "HIGH" →
        12 ≤ content ∧ 3 ≤ critical_path_score flags) := by
  intro content path flags
  constructor
  · intro h12
    rw [tiebreaking_category_eq]
    split_ifs <;> decide
  · intro hcat
    rw [tiebreaking_category_eq] at hcat
    split_ifs at hcat with h1 h2 h3 h4 h5 <;>
      first
        | exact h1
        | exact absurd hcat (by decide)

/-- Witness for C2: full structural match with content exactly 12 is HIGH,
hence neither IGNORE nor LOW, and its critical path score is at least 3. -/
theorem C2_high_content_demotes_to_medium_at_worst_witness :
    ((calculate_tiebreaking_score 12 0 ⟨true, true, true, true⟩).category ≠ "IGNORE" ∧
      (calculate_tiebreaking_score 12 0 ⟨true, true, true, true⟩).category ≠ "LOW") ∧
      (12 ≤ 12 ∧ 3 ≤ critical_path_score ⟨true, true, true, true⟩) :=
  ⟨(C2_high_content_demotes_to_medium_at_worst 12 0 ⟨true, true, true, true⟩).1
      (by decide),
    (C2_high_content_demotes_to_medium_at_worst 12 0 ⟨true, true, true, true⟩).2
      (by decide)⟩

/-- The descriptor of claim C3: service `party`, operation `add`, no
account type, direction `request`. -/
def miParty : EnhancedMappingInfo :=
  ⟨"party", "add", none, "request", "party_add.xlsx"⟩

/-- Tiebreaking score of a `validatePostalCode` candidate with content 15
under `miParty`, given its file path. -/
def c3Score (path : String) : TieBreakingScore :=
  calculate_tiebreaking_score 15 (calculate_enhanced_path_score path miParty).1
    (calculate_enhanced_path_score path miParty).2

/-- C3: evaluating the code at the claim's scenario.  The party-path
function is HIGH as claimed, but the beneficiary-path and no-service
functions are also HIGH (the claim and the in-file worked example say
MEDIUM): with no account type in the descriptor the vacuously-true
account-type flag still adds 1 to the critical path score, so direction +
operation + vacuous account type already reach the HIGH threshold 3. -/
theorem C3_beneficiary_path_categorized_high :
    (c3Score "/request/party/add/PartyValidator.java").category = "HIGH" ∧
      (c3Score "/request/beneficiary/add/BeneficiaryValidator.java").category = "HIGH" ∧
      (c3Score "/request/misc/add/CommonValidator.java").category = "HIGH" ∧
      critical_path_score
        (calculate_enhanced_path_score
          "/request/beneficiary/add/BeneficiaryValidator.java" miParty).2 = 3 := by
  refine ⟨?_, ?_, ?_, ?_⟩ <;> decide

/-! ### `find_method_end` (missing_core_files.py, lines 247-267) -/

/-- Python `line.strip()` (whitespace removed at both ends). -/
def stripStr (s : String) : String :=
  ⟨((s.data.dropWhile Char.isWhitespace).reverse.dropWhile Char.isWhitespace).reverse⟩

/-- The skip condition of `find_method_end`, applied to an
already-stripped line: blank, `//`, `/*` or `*` lines are skipped. -/
def strippedSkippable (s : String) : Bool :=
  s.data.isEmpty || strStarts s "//" || strStarts s "/*" || strStarts s "*"

/-- A raw source line that `find_method_end` skips entirely. -/
def lineSkip (l : String) : Bool :=
  strippedSkippable (stripStr l)

/-- Character scan of one line: `{` increments the balance and marks the
method body open, `}` decrements and signals the end (`none`) when the
balance returns to zero inside the body. -/
def scanChars : Int → Bool → List Char → Option (Int × Bool)
  | bc, inB, [] => some (bc, inB)
  | bc, inB, c :: cs =>
    if c = '{' then scanChars (bc + 1) true cs
    else if c = '}' then
      if bc - 1 = 0 ∧ inB = true then none
      else scanChars (bc - 1) inB cs
    else scanChars bc inB cs

/-- Line loop of `find_method_end`: `i` is the current line index,
`total` the number of lines of the file. -/
def findEndGo (total : Nat) : List String → Nat → Int → Bool → Int
  | [], _, _, _ => (total : Int) - 1
  | l :: rest, i, bc, inB =>
    let s := stripStr l
    if strippedSkippable s then findEndGo total rest (i + 1) bc inB
    else
      match scanChars bc inB s.data with
      | none => (i : Int)
      | some (bc', inB') => findEndGo total rest (i + 1) bc' inB'

/-- `find_method_end` (missing_core_files.py): result is `len(code_lines) - 1`
when the brace balance never returns to zero. -/
def find_method_end (code_lines : List String) (start_line : Nat) : Int :=
  findEndGo code_lines.length (code_lines.drop start_line) start_line 0 false

theorem findEndGo_bounds (total start : Nat) (hstart : start < total) :
    ∀ (ls : List String) (i : Nat) (bc : Int) (inB : Bool),
      i + ls.length = total → start ≤ i →
        (start : Int) ≤ findEndGo total ls i bc inB ∧
          findEndGo total ls i bc inB < (total : Int) := by
  intro ls
  induction ls with
  | nil =>
    intro i bc inB hlen hi
    simp only [findEndGo]
    omega
  | cons l rest ih =>
    intro i bc inB hlen hi
    simp only [findEndGo]
    split
    · exact ih (i + 1) bc inB (by simp at hlen; omega) (by omega)
    · split
      · simp only [List.length_cons] at hlen
        omega
      · exact ih (i + 1) _ _ (by simp at hlen; omega) (by omega)

/-- The skip-line relation: two files agree up to the content of lines
that `find_method_end` skips (blank lines and line comments). -/
def skipAgree (a b : String) : Prop :=
  a = b ∨ (lineSkip a = true ∧ lineSkip b = true)

theorem findEndGo_congr (total : Nat) :
    ∀ {l₁ l₂ : List String}, List.Forall₂ skipAgree l₁ l₂ →
      ∀ (i : Nat) (bc : Int) (inB : Bool),
        findEndGo total l₁ i bc inB = findEndGo total l₂ i bc inB := by
  intro l₁ l₂ h
  induction h with
  | nil => intro i bc inB; rfl
  | cons hab htail ih =>
    intro i bc inB
    rcases hab with heq | ⟨hska, hskb⟩
    · subst heq
      simp only [findEndGo]
      split
      · exact ih (i + 1) _ _
      · split
        · rfl
        · exact ih (i + 1) _ _
    · simp only [findEndGo, lineSkip] at hska hskb ⊢
      rw [hska, hskb]
      simp only [if_true]
      exact ih (i + 1) _ _

theorem forall₂_drop {α β : Type} {R : α → β → Prop} :
    ∀ (n : Nat) {l₁ : List α} {l₂ : List β}, List.Forall₂ R l₁ l₂ →
      List.Forall₂ R (l₁.drop n) (l₂.drop n) := by
  intro n
  induction n with
  | zero => intro l₁ l₂ h; simpa using h
  | succ m ih =>
    intro l₁ l₂ h
    cases h with
    | nil => exact List.Forall₂.nil
    | cons hab htail => simpa using ih htail

/-- C8 counterexample file: line 1 is a code line whose trailing line
comment contains a closing brace. -/
def c8TrailingLines : List String :=
  ["void f() \x7b", "  int x = 1; // \x7d", "\x7d", "int y;"]

/-- The same file with the brace removed from the trailing comment. -/
def c8TrailingNoBrace : List String :=
  ["void f() \x7b", "  int x = 1; //", "\x7d", "int y;"]

/-- C8 counterexample: `find_method_end` skips only lines that strip to a
whole-line comment; a brace inside a trailing comment on a code line is
counted.  With the brace in the trailing comment the span ends at line 1
(inside the comment) instead of line 2, so braces inside line comments are
not ignored in general, refuting the claim as stated. -/
theorem C8_trailing_comment_brace_counted :
    find_method_end c8TrailingLines 0 = 1 ∧
      find_method_end c8TrailingNoBrace 0 = 2 ∧
      find_method_end c8TrailingLines 0 ≠ find_method_end c8TrailingNoBrace 0 := by
  refine ⟨?_, ?_, ?_⟩ <;> decide

/-- C8 amended: the body-span end returned by `find_method_end` always lies
between the declared start line and the last line of the file (inclusive,
total — the balance never returning to zero falls back to the last line),
and the computation ignores the content of the lines it skips: rewriting
any line that strips to a line comment (`//`, `/*`, `*`) or is blank —
braces included — cannot change the result.  (Braces in trailing comments
on code lines are counted; see the counterexample above.) -/
theorem C8_find_method_end_span :
    (∀ (code_lines : List String) (start_line : Nat),
      start_line < code_lines.length →
        (start_line : Int) ≤ find_method_end code_lines start_line ∧
          find_method_end code_lines start_line < (code_lines.length : Int)) ∧
    (∀ (l₁ l₂ : List String) (start_line : Nat),
      List.Forall₂ skipAgree l₁ l₂ →
        find_method_end l₁ start_line = find_method_end l₂ start_line) := by
  constructor
  · intro code_lines start_line h
    unfold find_method_end
    refine findEndGo_bounds code_lines.length start_line h _ start_line 0 false ?_ le_rfl
    rw [List.length_drop]
    omega
  · intro l₁ l₂ start_line h
    unfold find_method_end
    rw [h.length_eq]
    exact findEndGo_congr l₂.length (forall₂_drop start_line h) start_line 0 false

/-- Concrete file for the C8 witness. -/
def c8Lines : List String := ["void f() \x7b", "  // \x7d", "\x7d", "int x;"]

/-- The same file with a different brace-laden comment on line 1. -/
def c8LinesAlt : List String := ["void f() \x7b", "  // \x7d\x7d\x7d", "\x7d", "int x;"]

/-- Witness for C8: a concrete four-line method whose second line is a
comment containing a stray closing brace; the end is found within bounds,
and rewriting the comment line does not change the result. -/
theorem C8_find_method_end_span_witness :
    ((0 : Int) ≤ find_method_end c8Lines 0 ∧
      find_method_end c8Lines 0 < (4 : Int)) ∧
      find_method_end c8Lines 0 = find_method_end c8LinesAlt 0 :=
  ⟨by simpa [c8Lines] using C8_find_method_end_span.1 c8Lines 0 (by decide),
    C8_find_method_end_span.2 c8Lines c8LinesAlt 0
      (List.Forall₂.cons (Or.inl rfl)
        (List.Forall₂.cons (Or.inr ⟨by decide, by decide⟩)
          (List.Forall₂.cons (Or.inl rfl)
            (List.Forall₂.cons (Or.inl rfl) List.Forall₂.nil))))⟩

/-! ### Score propagation (minimal-score-propagation.py)

`propagate_scores_to_callees` is a BFS over an explicit work queue.  The
Python `while queue` loop is modelled with a fuel parameter set to the
maximum possible number of queue pops (each signature is enqueued at most
once).  `int(score * factor ** (depth+1))` with the nonnegative dyadic
factor `fNum/fDen` is the floor of the exact product, i.e. Nat division
`score * fNum ^ (depth+1) / fDen ^ (depth+1)`.  The run also returns the
trace of all propagation offers `(callee, amount)` made to callees. -/

/-- The method record consumed by `_calculate_method_score`; the two list
fields of the source are kept as their lengths, which is all the scoring
reads. -/
structure PropMethod where
  method_name : String
  calls_made : List String
  contains_keywords : Bool
  relevance_total : Option Nat
  mapping_annotation_count : Nat
  field_mapping_count : Nat

/-- `_calculate_method_score`: keywords +10, relevance total when present,
8 per mapping annotation, 12 per field mapping. -/
def calculate_method_score (m : PropMethod) : Nat :=
  (if m.contains_keywords then 10 else 0) +
    (match m.relevance_total with
     | some t => t
     | none => 0) +
    m.mapping_annotation_count * 8 + m.field_mapping_count * 12

/-- State of the propagation BFS: the `propagated_scores` dict, the work
queue of `(signature, depth)` pairs, and the visited set. -/
structure PropState where
  scores : List (String × Nat)
  queue : List (String × Nat)
  visited : List String

/-- `propagated_scores.get(sig, 0)`. -/
def getScore : List (String × Nat) → String → Nat
  | [], _ => 0
  | p :: rest, sig => if p.1 = sig then p.2 else getScore rest sig

/-- `propagated_scores[sig] = v` (dict update keeps the key's position). -/
def setScore : List (String × Nat) → String → Nat → List (String × Nat)
  | [], sig, v => [(sig, v)]
  | p :: rest, sig, v => if p.1 = sig then (sig, v) :: rest else p :: setScore rest sig v

/-- `all_methods.get(sig)`. -/
def lookupMethod : List (String × PropMethod) → String → Option PropMethod
  | [], _ => none
  | q :: rest, sig => if q.1 = sig then some q.2 else lookupMethod rest sig

/-- One propagation offer to one callee: the recorded score becomes the max
of the existing score and the offered amount; on a strict improvement an
unvisited callee is enqueued one level deeper. -/
def processOffer (amount depth : Nat) (st : PropState) (callee : String) : PropState :=
  let existing := getScore st.scores callee
  let newScore := max existing amount
  if existing < newScore then
    let scores' := setScore st.scores callee newScore
    if st.visited.contains callee then
      { scores := scores', queue := st.queue, visited := st.visited }
    else
      { scores := scores', queue := st.queue ++ [(callee, depth + 1)],
        visited := st.visited ++ [callee] }
  else st

/-- The callee signatures offered to by a method: for each called name, all
signatures whose method has that name, in registry order. -/
def offerTargets (allMethods : List (String × PropMethod)) (m : PropMethod) :
    List String :=
  (m.calls_made.map (fun nm =>
    (allMethods.filter (fun q => q.2.method_name == nm)).map (fun q => q.1))).flatten

/-- The BFS loop of `propagate_scores_to_callees`, returning the final
state and the trace of all offers made. -/
def propagateLoop (allMethods : List (String × PropMethod)) (fNum fDen maxDepth : Nat) :
    Nat → PropState → PropState × List (String × Nat)
  | 0, st => (st, [])
  | fuel + 1, st =>
    match st.queue with
    | [] => (st, [])
    | (sig, depth) :: rest =>
      let st₁ : PropState := { st with queue := rest }
      if maxDepth ≤ depth then propagateLoop allMethods fNum fDen maxDepth fuel st₁
      else
        match lookupMethod allMethods sig with
        | none => propagateLoop allMethods fNum fDen maxDepth fuel st₁
        | some m =>
          let cur := getScore st₁.scores sig
          let amount := cur * fNum ^ (depth + 1) / fDen ^ (depth + 1)
          let targets := offerTargets allMethods m
          let st₂ := targets.foldl (processOffer amount depth) st₁
          let r := propagateLoop allMethods fNum fDen maxDepth fuel st₂
          (r.1, targets.map (fun c => (c, amount)) ++ r.2)

/-- Seed initialization: each seed present in the registry starts at its
intrinsic `_calculate_method_score`. -/
def initScores (allMethods : List (String × PropMethod)) (seeds : List String) :
    List (String × Nat) :=
  seeds.foldl (fun sc sig =>
    match lookupMethod allMethods sig with
    | some m => setScore sc sig (calculate_method_score m)
    | none => sc) []

/-- `propagate_scores_to_callees` (minimal-score-propagation.py, 28-99). -/
def propagate_scores_to_callees (allMethods : List (String × PropMethod))
    (seeds : List String) (fNum fDen maxDepth : Nat) :
    PropState × List (String × Nat) :=
  propagateLoop allMethods fNum fDen maxDepth (seeds.length + allMethods.length)
    { scores := initScores allMethods seeds,
      queue := seeds.map (fun s => (s, 0)),
      visited := seeds }

/-- The maximum amount offered to `sig` in an offer trace (0 if none). -/
def maxOffers : List (String × Nat) → String → Nat
  | [], _ => 0
  | p :: rest, sig => if p.1 = sig then max p.2 (maxOffers rest sig) else maxOffers rest sig

theorem getScore_setScore (sc : List (String × Nat)) (sig : String) (v : Nat)
    (x : String) :
    getScore (setScore sc sig v) x = if x = sig then v else getScore sc x := by
  induction sc with
  | nil =>
    by_cases h : x = sig
    · simp [setScore, getScore, h]
    · have h' : ¬sig = x := fun hh => h hh.symm
      simp [setScore, getScore, h, h']
  | cons p rest ih =>
    by_cases hp : p.1 = sig
    · by_cases hx : x = sig
      · simp [setScore, getScore, hp, hx]
      · have h' : ¬sig = x := fun hh => hx hh.symm
        simp [setScore, getScore, hp, hx, h']
    · by_cases hpx : p.1 = x
      · have hxs : ¬x = sig := fun hh => hp (hpx.trans hh)
        simp [setScore, getScore, hp, hpx, hxs]
      · simp [setScore, getScore, hp, hpx, ih]

theorem getScore_processOffer (amount depth : Nat) (st : PropState) (callee x : String) :
    getScore (processOffer amount depth st callee).scores x =
      if x = callee then max (getScore st.scores x) amount else getScore st.scores x := by
  unfold processOffer
  by_cases himp : getScore st.scores callee < max (getScore st.scores callee) amount
  · simp only [himp, if_true]
    by_cases hv : st.visited.contains callee
    · simp only [hv, if_true, getScore_setScore]
      by_cases hx : x = callee <;> simp [hx]
    · simp only [hv, Bool.false_eq_true, if_false, getScore_setScore]
      by_cases hx : x = callee <;> simp [hx]
  · simp only [himp, if_false]
    by_cases hx : x = callee
    · subst hx
      have : max (getScore st.scores x) amount = getScore st.scores x := by omega
      simp [this]
    · simp [hx]

theorem maxOffers_cons (c : String) (a : Nat) (log : List (String × Nat)) (x : String) :
    maxOffers ((c, a) :: log) x =
      if x = c then max a (maxOffers log x) else maxOffers log x := by
  by_cases hx : x = c
  · simp [maxOffers, hx]
  · have h' : ¬c = x := fun hh => hx hh.symm
    simp [maxOffers, hx, h']

theorem maxOffers_append (l₁ l₂ : List (String × Nat)) (x : String) :
    maxOffers (l₁ ++ l₂) x = max (maxOffers l₁ x) (maxOffers l₂ x) := by
  induction l₁ with
  | nil => simp [maxOffers]
  | cons p rest ih =>
    rcases p with ⟨c, a⟩
    rw [List.cons_append, maxOffers_cons, maxOffers_cons, ih]
    by_cases hx : x = c <;> simp [hx] <;> omega

theorem getScore_foldl_processOffer (amount depth : Nat) :
    ∀ (targets : List String) (st : PropState) (x : String),
      getScore ((targets.foldl (processOffer amount depth) st).scores) x =
        max (getScore st.scores x)
          (maxOffers (targets.map (fun c => (c, amount))) x) := by
  intro targets
  induction targets with
  | nil => intro st x; simp [maxOffers]
  | cons t ts ih =>
    intro st x
    rw [List.foldl_cons, ih, List.map_cons, maxOffers_cons, getScore_processOffer]
    by_cases hx : x = t <;> simp [hx] <;> omega

theorem propagateLoop_score_max (allMethods : List (String × PropMethod))
    (fNum fDen maxDepth : Nat) :
    ∀ (fuel : Nat) (st : PropState) (sig : String),
      getScore (propagateLoop allMethods fNum fDen maxDepth fuel st).1.scores sig =
        max (getScore st.scores sig)
          (maxOffers (propagateLoop allMethods fNum fDen maxDepth fuel st).2 sig) := by
  intro fuel
  induction fuel with
  | zero => intro st sig; simp [propagateLoop, maxOffers]
  | succ n ih =>
    intro st sig
    rw [propagateLoop]
    match hq : st.queue with
    | [] => simp [maxOffers]
    | (s, depth) :: rest =>
      by_cases hd : maxDepth ≤ depth
      · simp only [hd, if_true]
        exact ih _ sig
      · simp only [hd, if_false]
        match hm : lookupMethod allMethods s with
        | none => exact ih _ sig
        | some m =>
          simp only
          rw [maxOffers_append, ih, getScore_foldl_processOffer]
          dsimp only
          omega

/-- C5: the propagated score recorded for any function equals the maximum
of its initial (seed) score and the largest single propagation offer made
to it during the run — offers along multiple paths are combined by max,
never summed. -/
theorem C5_propagation_takes_max_not_sum :
    ∀ (allMethods : List (String × PropMethod)) (seeds : List String)
      (fNum fDen maxDepth : Nat) (sig : String),
      getScore (propagate_scores_to_callees allMethods seeds fNum fDen maxDepth).1.scores
          sig =
        max (getScore (initScores allMethods seeds) sig)
          (maxOffers (propagate_scores_to_callees allMethods seeds fNum fDen maxDepth).2
            sig) := by
  intro allMethods seeds fNum fDen maxDepth sig
  unfold propagate_scores_to_callees
  exact propagateLoop_score_max allMethods fNum fDen maxDepth _ _ sig

/-- Seed A of the C4 chain, intrinsic score 30 (keywords 10 + relevance 20). -/
def methodA : PropMethod := ⟨"methodA", ["methodB"], true, some 20, 0, 0⟩

/-- B of the C4 chain, intrinsic score 0, calls C. -/
def methodB : PropMethod := ⟨"methodB", ["methodC"], false, none, 0, 0⟩

/-- C of the C4 chain, intrinsic score 0. -/
def methodC : PropMethod := ⟨"methodC", [], false, none, 0, 0⟩

/-- Registry for the C4 chain A → B → C. -/
def c4Methods : List (String × PropMethod) :=
  [("ClassA.methodA()", methodA), ("ClassB.methodB()", methodB),
    ("ClassC.methodC()", methodC)]

/-- The C4 run: seed A, decay 3/4, max depth 2. -/
def c4Run : PropState × List (String × Nat) :=
  propagate_scores_to_callees c4Methods ["ClassA.methodA()"] 3 4 2

/-- C4 counterexample: B one hop from the seed does get 22 = ⌊30·0.75⌋, but
C two hops away gets 12 = ⌊22·0.75²⌋, not ⌊30·0.75²⌋ = 16: the offer to a
callee applies `factor^(depth+1)` to the parent's already-decayed recorded
score, so the decay compounds instead of being `seed × factor^hops`. -/
theorem C4_second_hop_is_12_not_16 :
    getScore c4Run.1.scores "ClassB.methodB()" = 22 ∧
      getScore c4Run.1.scores "ClassC.methodC()" = 12 ∧
      getScore c4Run.1.scores "ClassC.methodC()" ≠ 30 * 3 ^ 2 / 4 ^ 2 := by
  refine ⟨?_, ?_, ?_⟩ <;> decide

/-- The retained set after propagation (smart_extract_java_code_blocks,
minimal-score-propagation.py 199-203): seeds plus every signature whose
propagated score meets the floor. -/
def relevantAfterPropagation (run : PropState × List (String × Nat))
    (seeds : List String) (minScore : Nat) : List String :=
  seeds ++ (run.1.scores.filter (fun p => minScore ≤ p.2)).map (fun p => p.1)

/-- C4 amended: with decay 0.75, floor 8 and max depth 2, B receives
⌊30·0.75⌋ = 22 and C receives ⌊22·0.75²⌋ = 12 (compounded decay with a
growing exponent per hop, not seed × 0.75^hops); both meet the floor 8 and
both are retained. -/
theorem C4_chain_scores_and_retention :
    getScore c4Run.1.scores "ClassB.methodB()" = 22 ∧
      getScore c4Run.1.scores "ClassC.methodC()" = 12 ∧
      8 ≤ getScore c4Run.1.scores "ClassB.methodB()" ∧
      8 ≤ getScore c4Run.1.scores "ClassC.methodC()" ∧
      "ClassB.methodB()" ∈ relevantAfterPropagation c4Run ["ClassA.methodA()"] 8 ∧
      "ClassC.methodC()" ∈ relevantAfterPropagation c4Run ["ClassA.methodA()"] 8 := by
  refine ⟨?_, ?_, ?_, ?_, ?_, ?_⟩ <;> decide

/-! ### Seed selection (complete_java_extractor_function.py, lines 85-124,
with `resolve_content_conflicts` from corrected_smart_extraction.py 263-304)

The selection phase reads `category` on each combined score, `total_score`
as the backfill sort key, and the content/path/match fields inside
`resolve_content_conflicts`; one record carries all of them.  Dict keys
(signatures) are unique, so the Python sets of signatures are modelled as
lists without duplicates. -/

/-- The per-method combined score as read by the seed-selection phase. -/
structure SeedScore where
  category : String
  total_score : Nat
  content_score : Nat
  path_score : Nat
  service_match : Bool
  operation_match : Bool
  account_type_match : Bool
  final_score : Nat

/-- `score.service_match + score.operation_match + score.account_type_match`
(Python bools sum as 0/1). -/
def critMatches (s : SeedScore) : Nat :=
  (if s.service_match then 1 else 0) + (if s.operation_match then 1 else 0) +
    (if s.account_type_match then 1 else 0)

/-- Sort key of the high-content conflict sort. -/
def conflictKey (c : String × SeedScore) : Nat × Nat × Nat :=
  (critMatches c.2, c.2.path_score, c.2.content_score)

/-- Lexicographic order on triples of naturals. -/
def lexLe3 (x y : Nat × Nat × Nat) : Prop :=
  x.1 < y.1 ∨ (x.1 = y.1 ∧ (x.2.1 < y.2.1 ∨ (x.2.1 = y.2.1 ∧ x.2.2 ≤ y.2.2)))

instance (x y : Nat × Nat × Nat) : Decidable (lexLe3 x y) := by
  unfold lexLe3; exact inferInstance

/-- Descending stable order for the conflict sort
(`sort(key=(critical, path, content), reverse=True)`). -/
def conflictDesc (a b : String × SeedScore) : Prop :=
  lexLe3 (conflictKey b) (conflictKey a)

instance : DecidableRel conflictDesc := fun a b => by
  unfold conflictDesc; exact inferInstance

/-- Descending stable order by `final_score`. -/
def finalDesc (a b : String × SeedScore) : Prop :=
  b.2.final_score ≤ a.2.final_score

instance : DecidableRel finalDesc := fun _ _ => Nat.decLe _ _

/-- Descending stable order by `total_score` (the backfill sort key). -/
def totalDesc (a b : String × SeedScore) : Prop :=
  b.2.total_score ≤ a.2.total_score

instance : DecidableRel totalDesc := fun _ _ => Nat.decLe _ _

/-- `resolve_content_conflicts` (corrected_smart_extraction.py, 263-304). -/
def resolve_content_conflicts (candidates : List (String × SeedScore)) :
    List (String × SeedScore) :=
  if candidates.length ≤ 1 then candidates
  else
    let high_content := candidates.filter (fun c => decide (12 ≤ c.2.content_score))
    let medium_content := candidates.filter
      (fun c => decide (8 ≤ c.2.content_score ∧ c.2.content_score < 12))
    let resolved₁ :=
      if high_content.isEmpty then []
      else
        let sorted := List.insertionSort conflictDesc high_content
        let best :=
          match sorted with
          | [] => 0
          | c :: _ => c.2.path_score
        sorted.filter (fun c => decide (best ≤ c.2.path_score + 2))
    if medium_content.isEmpty = false ∧ resolved₁.length < 5 then
      resolved₁ ++
        ((List.insertionSort finalDesc medium_content).take 3).filter
          (fun c => c.2.service_match && c.2.operation_match)
    else resolved₁

/-- Phase 3 seed selection of
`extract_java_code_blocks_with_cross_references`
(complete_java_extractor_function.py, 85-124): all HIGH (conflict-resolved
when more than 10), then, when fewer than 5 seeds and MEDIUM exists, the
top five MEDIUM signatures by `total_score`. -/
def smartSeedSelection (enhanced : List (String × SeedScore)) : List String :=
  let high_relevance := enhanced.filter (fun c => c.2.category == "HIGH")
  let medium_relevance := enhanced.filter (fun c => c.2.category == "MEDIUM")
  let seeds₁ : List String :=
    if 10 < high_relevance.length then
      (resolve_content_conflicts high_relevance).map (fun c => c.1)
    else high_relevance.map (fun c => c.1)
  if seeds₁.length < 5 ∧ medium_relevance.isEmpty = false then
    seeds₁ ++ ((List.insertionSort totalDesc medium_relevance).take 5).map (fun c => c.1)
  else seeds₁

/-- A combined score record with only category and total score set. -/
def c6Score (cat : String) (total : Nat) : SeedScore :=
  ⟨cat, total, 0, 0, false, false, false, 0⟩

/-- Concrete scored registry for C6: four HIGH and five MEDIUM methods. -/
def c6Enhanced : List (String × SeedScore) :=
  [("h1", c6Score "HIGH" 30), ("h2", c6Score "HIGH" 29),
    ("h3", c6Score "HIGH" 28), ("h4", c6Score "HIGH" 27),
    ("m1", c6Score "MEDIUM" 25), ("m2", c6Score "MEDIUM" 24),
    ("m3", c6Score "MEDIUM" 23), ("m4", c6Score "MEDIUM" 22),
    ("m5", c6Score "MEDIUM" 21)]

/-- C6 counterexample: with 4 HIGH seeds and 5 MEDIUM candidates the
backfill adds the top `min(5, |MEDIUM|)` MEDIUM methods wholesale
(`medium_relevance[:5]`), producing 9 seeds — not the 5 that stopping at
the minimum would give. -/
theorem C6_backfill_overshoots_minimum :
    (smartSeedSelection c6Enhanced).length = 9 ∧
      (smartSeedSelection c6Enhanced).Nodup ∧ (9 : Nat) ≠ 5 := by
  refine ⟨?_, ?_, ?_⟩ <;> decide

theorem resolve_content_conflicts_subset (candidates : List (String × SeedScore))
    (c : String × SeedScore) (h : c ∈ resolve_content_conflicts candidates) :
    c ∈ candidates := by
  have memHigh : ∀ (p : String × SeedScore → Bool),
      c ∈ (List.insertionSort conflictDesc
          (candidates.filter (fun c => decide (12 ≤ c.2.content_score)))).filter p →
        c ∈ candidates := by
    intro p hc
    have hs := (List.mem_filter.mp hc).1
    exact (List.mem_filter.mp
      ((List.perm_insertionSort conflictDesc _).mem_iff.mp hs)).1
  have memMed : ∀ (p : String × SeedScore → Bool),
      c ∈ ((List.insertionSort finalDesc
          (candidates.filter
            (fun c => decide (8 ≤ c.2.content_score ∧ c.2.content_score < 12)))).take 3).filter
            p →
        c ∈ candidates := by
    intro p hc
    have ht := (List.mem_filter.mp hc).1
    have hm := List.mem_of_mem_take ht
    exact (List.mem_filter.mp
      ((List.perm_insertionSort finalDesc _).mem_iff.mp hm)).1
  simp only [resolve_content_conflicts] at h
  by_cases hlen : candidates.length ≤ 1
  · simpa [hlen] using h
  · simp only [hlen, if_false] at h
    split at h <;> split at h <;>
      (try rcases List.mem_append.mp h with h | h) <;>
      first
        | exact absurd h (List.not_mem_nil c)
        | exact memHigh _ h
        | exact memMed _ h

/-- C6 amended: seeds come only from HIGH or MEDIUM scores (never IGNORE,
never LOW); and when at most 10 HIGH exist, fewer than 5 HIGH seeds result
and MEDIUM is nonempty, the selection returns the HIGH seeds plus the top
`min(5, |MEDIUM|)` MEDIUM signatures — possibly overshooting the minimum
of 5. -/
theorem C6_seed_selection_amended :
    (∀ (enhanced : List (String × SeedScore)) (sig : String),
      sig ∈ smartSeedSelection enhanced →
        ∃ sc, (sig, sc) ∈ enhanced ∧ (sc.category = "HIGH" ∨ sc.category = "MEDIUM")) ∧
    (∀ enhanced : List (String × SeedScore),
      (enhanced.filter (fun c => c.2.category == "HIGH")).length ≤ 10 →
      (enhanced.filter (fun c => c.2.category == "HIGH")).length < 5 →
      (enhanced.filter (fun c => c.2.category == "MEDIUM")).isEmpty = false →
      (smartSeedSelection enhanced).length =
        (enhanced.filter (fun c => c.2.category == "HIGH")).length +
          min 5 (enhanced.filter (fun c => c.2.category == "MEDIUM")).length) := by
  constructor
  · intro enhanced sig hmem
    have fromHigh :
        sig ∈ (enhanced.filter (fun c => c.2.category == "HIGH")).map (fun c => c.1) →
          ∃ sc, (sig, sc) ∈ enhanced ∧ (sc.category = "HIGH" ∨ sc.category = "MEDIUM") := by
      intro h
      obtain ⟨c, hc, hceq⟩ := List.mem_map.mp h
      have hf := List.mem_filter.mp hc
      exact ⟨c.2, by rw [← hceq]; exact hf.1, Or.inl (by simpa using hf.2)⟩
    have fromRes :
        sig ∈ (resolve_content_conflicts
            (enhanced.filter (fun c => c.2.category == "HIGH"))).map (fun c => c.1) →
          ∃ sc, (sig, sc) ∈ enhanced ∧ (sc.category = "HIGH" ∨ sc.category = "MEDIUM") := by
      intro h
      obtain ⟨c, hc, hceq⟩ := List.mem_map.mp h
      have hf := List.mem_filter.mp (resolve_content_conflicts_subset _ c hc)
      exact ⟨c.2, by rw [← hceq]; exact hf.1, Or.inl (by simpa using hf.2)⟩
    have fromMed :
        sig ∈ ((List.insertionSort totalDesc
            (enhanced.filter (fun c => c.2.category == "MEDIUM"))).take 5).map
              (fun c => c.1) →
          ∃ sc, (sig, sc) ∈ enhanced ∧ (sc.category = "HIGH" ∨ sc.category = "MEDIUM") := by
      intro h
      obtain ⟨c, hc, hceq⟩ := List.mem_map.mp h
      have hm := (List.perm_insertionSort totalDesc _).mem_iff.mp (List.mem_of_mem_take hc)
      have hf := List.mem_filter.mp hm
      exact ⟨c.2, by rw [← hceq]; exact hf.1, Or.inr (by simpa using hf.2)⟩
    simp only [smartSeedSelection] at hmem
    split at hmem <;> split at hmem <;>
      (try rcases List.mem_append.mp hmem with hmem | hmem) <;>
      first
        | exact fromRes hmem
        | exact fromHigh hmem
        | exact fromMed hmem
  · intro enhanced hcap hlow hmed
    simp only [smartSeedSelection]
    have hnot : ¬10 < (enhanced.filter (fun c => c.2.category == "HIGH")).length := by
      omega
    simp only [hnot, if_false, List.length_map]
    have hcond : (enhanced.filter (fun c => c.2.category == "HIGH")).length < 5 ∧
        (enhanced.filter (fun c => c.2.category == "MEDIUM")).isEmpty = false :=
      ⟨hlow, hmed⟩
    rw [if_pos hcond, List.length_append, List.length_map, List.length_map,
      List.length_take, List.length_insertionSort]

/-- Witness for C6 amended: 2 HIGH and 3 MEDIUM yield 2 + min(5,3) = 5
seeds, and a selected signature is backed by a HIGH or MEDIUM score. -/
theorem C6_seed_selection_amended_witness :
    (∃ sc, ("h1", sc) ∈ [("h1", c6Score "HIGH" 30), ("m1", c6Score "MEDIUM" 25)] ∧
      (sc.category = "HIGH" ∨ sc.category = "MEDIUM")) ∧
      (smartSeedSelection [("h1", c6Score "HIGH" 30), ("h2", c6Score "HIGH" 29),
        ("m1", c6Score "MEDIUM" 25), ("m2", c6Score "MEDIUM" 24),
        ("m3", c6Score "MEDIUM" 23)]).length = 2 + min 5 3 :=
  ⟨C6_seed_selection_amended.1 [("h1", c6Score "HIGH" 30), ("m1", c6Score "MEDIUM" 25)]
      "h1" (by decide),
    by
      have h := C6_seed_selection_amended.2 [("h1", c6Score "HIGH" 30),
        ("h2", c6Score "HIGH" 29), ("m1", c6Score "MEDIUM" 25),
        ("m2", c6Score "MEDIUM" 24), ("m3", c6Score "MEDIUM" 23)]
        (by decide) (by decide) (by decide)
      simpa using h⟩

/-! ### `calculate_method_relevance_score` (optimized_java_extractor.py, 205-265)

The score accumulates with `score +=` statements; the embedding states it
as the sum of its per-signal components in source order. -/

/-- The fields of a parsed method read by the scorer. -/
structure JMethod where
  method_name : String
  snippet : String
  file_path : String

/-- `os.path.basename`: everything after the last `/`. -/
def basename (p : String) : String :=
  ⟨p.data.foldl (fun acc c => if c = '/' then [] else acc ++ [c]) []⟩

/-- Primary keyword component: +50 for a (case-insensitive) match in the
method name, else +20 for a match in the method body, per keyword. -/
def primary_keyword_score (m : JMethod) (primary : List String) : Nat :=
  (primary.map (fun kw =>
    let k := strLower kw
    if strContains (strLower m.method_name) k then 50
    else if strContains (strLower m.snippet) k then 20
    else 0)).sum

/-- Secondary keyword component: +25 in the name, else +10 in the body. -/
def secondary_keyword_score (m : JMethod) (secondary : List String) : Nat :=
  (secondary.map (fun kw =>
    let k := strLower kw
    if strContains (strLower m.method_name) k then 25
    else if strContains (strLower m.snippet) k then 10
    else 0)).sum

/-- Path relevance component: service +15, operation +15, direction +10,
account type +15 when present in the lowercased file path. -/
def path_match_score (m : JMethod) (mi : EnhancedMappingInfo) : Nat :=
  let fp := strLower m.file_path
  (if mi.service_name != "unknown" && strContains fp mi.service_name then 15 else 0) +
    (if mi.operation != "unknown" && strContains fp mi.operation then 15 else 0) +
    (if strContains fp mi.direction then 10 else 0) +
    (match mi.account_type with
     | some a => if strContains fp a then 15 else 0
     | none => 0)

/-- File-type bonus from the lowercased basename: mapper 20, validator 15,
service/processor 10 (mutually exclusive `elif` chain). -/
def file_type_bonus (m : JMethod) : Nat :=
  let fn := strLower (basename m.file_path)
  if ["mapper", "mapping"].any (fun p => strContains fn p) then 20
  else if ["validator", "validation"].any (fun p => strContains fn p) then 15
  else if ["service", "processor"].any (fun p => strContains fn p) then 10
  else 0

/-- Method-name pattern bonus: mapping verbs +10 and validation verbs +8
(two independent `if`s). -/
def method_type_bonus (m : JMethod) : Nat :=
  let nm := strLower m.method_name
  (if ["map", "transform", "convert"].any (fun p => strContains nm p) then 10 else 0) +
    (if ["validate", "check", "verify"].any (fun p => strContains nm p) then 8 else 0)

/-- `calculate_method_relevance_score` (optimized_java_extractor.py). -/
def calculate_method_relevance_score (m : JMethod) (primary secondary : List String)
    (mi : EnhancedMappingInfo) : Nat :=
  primary_keyword_score m primary + secondary_keyword_score m secondary +
    path_match_score m mi + file_type_bonus m + method_type_bonus m

/-- Neutral descriptor (the fallback when no mapping file is supplied). -/
def c7MappingUnknown : EnhancedMappingInfo := ⟨"unknown", "unknown", none, "request", ""⟩

/-- A method whose exact name is the primary keyword, with no other signals. -/
def c7F : JMethod := ⟨"postalCode", "int postalCode;", "/x/a.java"⟩

/-- A method matching the keyword only in its body, but collecting secondary
keyword and name-pattern bonuses. -/
def c7G : JMethod := ⟨"mapValidateData", "x = postalCode;", "/x/b.java"⟩

/-- C7 counterexample: `c7F`'s exact name equals the primary keyword
(score 50) while `c7G` matches it only in its body, yet `c7G` scores 63
(20 body match + 25 secondary keyword in name + 10 mapping verb + 8
validation verb), so the claimed inequality fails: content signals other
than the primary keyword can outweigh the name-match bonus. -/
theorem C7_body_match_can_outscore_name_match :
    strLower c7F.method_name = strLower "postalCode" ∧
      strContains (strLower c7G.method_name) (strLower "postalCode") = false ∧
      strContains (strLower c7G.snippet) (strLower "postalCode") = true ∧
      calculate_method_relevance_score c7F ["postalCode"] ["data"] c7MappingUnknown = 50 ∧
      calculate_method_relevance_score c7G ["postalCode"] ["data"] c7MappingUnknown = 63 ∧
      ¬(calculate_method_relevance_score c7G ["postalCode"] ["data"] c7MappingUnknown ≤
          calculate_method_relevance_score c7F ["postalCode"] ["data"] c7MappingUnknown) := by
  refine ⟨?_, ?_, ?_, ?_, ?_, ?_⟩ <;> decide

/-- C7 amended: per keyword the name match (+50) strictly dominates the
body-only match (+20), so whenever the remaining components (secondary
keywords, path, file-type and method-name bonuses) of the name-matching
function are at least those of the body-matching one, its total score is
at least as large. -/
theorem C7_name_match_dominates_with_equal_rest :
    ∀ (f g : JMethod) (kw : String) (secondary : List String)
      (mi : EnhancedMappingInfo),
      strContains (strLower f.method_name) (strLower kw) = true →
      strContains (strLower g.method_name) (strLower kw) = false →
      secondary_keyword_score g secondary ≤ secondary_keyword_score f secondary →
      path_match_score g mi ≤ path_match_score f mi →
      file_type_bonus g ≤ file_type_bonus f →
      method_type_bonus g ≤ method_type_bonus f →
      calculate_method_relevance_score g [kw] secondary mi ≤
        calculate_method_relevance_score f [kw] secondary mi := by
  intro f g kw secondary mi hf hg hsec hpath hfile hmeth
  unfold calculate_method_relevance_score
  have hpf : primary_keyword_score f [kw] = 50 := by
    simp [primary_keyword_score, hf]
  have hpg : primary_keyword_score g [kw] ≤ 20 := by
    simp only [primary_keyword_score, List.map_cons, List.map_nil, List.sum_cons,
      List.sum_nil, hg, Bool.false_eq_true, if_false, Nat.add_zero]
    split <;> omega
  omega

/-- Witness for C7 amended: a body-only matcher with no other signals never
beats the exact-name matcher. -/
theorem C7_name_match_dominates_with_equal_rest_witness :
    calculate_method_relevance_score ⟨"other", "x = postalCode;", "/x/b.java"⟩
        ["postalCode"] ["data"] c7MappingUnknown ≤
      calculate_method_relevance_score c7F ["postalCode"] ["data"] c7MappingUnknown :=
  C7_name_match_dominates_with_equal_rest c7F
    ⟨"other", "x = postalCode;", "/x/b.java"⟩ "postalCode" ["data"] c7MappingUnknown
    (by decide) (by decide) (by decide) (by decide) (by decide) (by decide)

/-! ### Result organization, Phase 5 (missing_core_files.py, lines 129-165)

Phase 5 iterates `for method_sig in relevant_methods:` over a Python `set`
of strings.  CPython's set iteration order for strings depends on the
per-process hash seed, so it is modelled here as an explicit enumeration
`order` of the retained set; two runs of the same program may observe two
different enumerations of the same set. -/

/-- The parsed method record read by Phase 5. -/
structure MInfo where
  file_path : String
  method_name : String
  class_name : String
  package_name : String
  snippet : String
  contains_keywords : Bool

/-- `get_qualified_name` of `MethodInfo`. -/
def get_qualified_name (m : MInfo) : String :=
  (if m.package_name = "" then "" else m.package_name ++ ".") ++
    m.class_name ++ "." ++ m.method_name

/-- `all_methods.get(sig)` over the method registry. -/
def lookupInfo : List (String × MInfo) → String → Option MInfo
  | [], _ => none
  | q :: rest, sig => if q.1 = sig then some q.2 else lookupInfo rest sig

/-- `method_calls_map.get(sig, set())`. -/
def callsOf : List (String × List String) → String → List String
  | [], _ => []
  | p :: rest, sig => if p.1 = sig then p.2 else callsOf rest sig

/-- Category annotation of Phase 5: SEED, else CALLER / CALLEE /
CALLER_AND_CALLEE / INDIRECTLY_RELATED from the call map. -/
def basicCategory (seeds : List String) (cm : List (String × List String))
    (sig : String) : String :=
  if sig ∈ seeds then "SEED"
  else
    let is_caller := seeds.any (fun s => (callsOf cm sig).contains s)
    let is_callee := seeds.any (fun s => (callsOf cm s).contains sig)
    if is_caller && is_callee then "CALLER_AND_CALLEE"
    else if is_caller then "CALLER"
    else if is_callee then "CALLEE"
    else "INDIRECTLY_RELATED"

/-- The annotated snippet of Phase 5 (header, file line, raw snippet). -/
def annotateBasic (seeds : List String) (cm : List (String × List String))
    (sig : String) (m : MInfo) : String :=
  "// [" ++ basicCategory seeds cm sig ++ "] Method: " ++ get_qualified_name m ++
    (if m.contains_keywords then " [CONTAINS KEYWORDS]" else "") ++
    "\n// File: " ++ m.file_path ++ "\n" ++ m.snippet

/-- `results[file_path].append(snippet)` with dict-style key insertion. -/
def addResult : List (String × List String) → String → String →
    List (String × List String)
  | [], fp, sn => [(fp, [sn])]
  | p :: rest, fp, sn =>
    if p.1 = fp then (p.1, p.2 ++ [sn]) :: rest else p :: addResult rest fp sn

/-- Phase 5 of `extract_java_code_blocks_with_cross_references`
(missing_core_files.py): build `results` by iterating the retained set in
the enumeration `order`. -/
def organizeBasicResults (allMethods : List (String × MInfo)) (seeds : List String)
    (cm : List (String × List String)) (order : List String) :
    List (String × List String) :=
  order.foldl (fun res sig =>
    match lookupInfo allMethods sig with
    | none => res
    | some m => addResult res m.file_path (annotateBasic seeds cm sig m)) []

/-- The `(file, snippet)` pairs of a results dict, in serialization order. -/
def resultsFlatten (res : List (String × List String)) : List (String × String) :=
  (res.map (fun p => p.2.map (fun sn => (p.1, sn)))).flatten

theorem resultsFlatten_addResult (res : List (String × List String)) (fp sn : String) :
    List.Perm (resultsFlatten (addResult res fp sn))
      (resultsFlatten res ++ [(fp, sn)]) := by
  induction res with
  | nil => simp [addResult, resultsFlatten]
  | cons p rest ih =>
    by_cases hfp : p.1 = fp
    · simp only [addResult, hfp, if_true, resultsFlatten, List.map_cons, List.flatten_cons,
        List.map_append]
      subst hfp
      rw [List.append_assoc, List.append_assoc]
      exact List.Perm.append_left _ (by simpa using (List.perm_append_singleton _ _).symm)
    · simp only [addResult, hfp, if_false, resultsFlatten, List.map_cons, List.flatten_cons]
      rw [List.append_assoc]
      exact List.Perm.append_left _ ih

/-- The snippet produced for one signature of the enumeration, if any. -/
def snippetFor (allMethods : List (String × MInfo)) (seeds : List String)
    (cm : List (String × List String)) (sig : String) : Option (String × String) :=
  match lookupInfo allMethods sig with
  | none => none
  | some m => some (m.file_path, annotateBasic seeds cm sig m)

theorem resultsFlatten_organize_foldl (allMethods : List (String × MInfo))
    (seeds : List String) (cm : List (String × List String)) :
    ∀ (order : List String) (res : List (String × List String)),
      List.Perm
        (resultsFlatten (order.foldl (fun res sig =>
          match lookupInfo allMethods sig with
          | none => res
          | some m => addResult res m.file_path (annotateBasic seeds cm sig m)) res))
        (resultsFlatten res ++ order.filterMap (snippetFor allMethods seeds cm)) := by
  intro order
  induction order with
  | nil => intro res; simp
  | cons sig rest ih =>
    intro res
    rw [List.foldl_cons, List.filterMap_cons]
    match hm : lookupInfo allMethods sig with
    | none => simpa [snippetFor, hm] using ih res
    | some m =>
      have h1 := ih (addResult res m.file_path (annotateBasic seeds cm sig m))
      have h2 := resultsFlatten_addResult res m.file_path (annotateBasic seeds cm sig m)
      simp only [snippetFor, hm]
      refine h1.trans ?_
      rw [show resultsFlatten res ++ (m.file_path, annotateBasic seeds cm sig m) ::
          List.filterMap (snippetFor allMethods seeds cm) rest =
        (resultsFlatten res ++ [(m.file_path, annotateBasic seeds cm sig m)]) ++
          List.filterMap (snippetFor allMethods seeds cm) rest by simp]
      exact List.Perm.append h2 (List.Perm.refl _)

/-- C9 amended, general part: two enumerations of the same retained set
produce the same multiset of `(file, annotated snippet)` pairs. -/
theorem C9_results_perm_invariant :
    ∀ (allMethods : List (String × MInfo)) (seeds : List String)
      (cm : List (String × List String)) (order₁ order₂ : List String),
      List.Perm order₁ order₂ →
        List.Perm (resultsFlatten (organizeBasicResults allMethods seeds cm order₁))
          (resultsFlatten (organizeBasicResults allMethods seeds cm order₂)) := by
  intro allMethods seeds cm order₁ order₂ hperm
  have h1 := resultsFlatten_organize_foldl allMethods seeds cm order₁ []
  have h2 := resultsFlatten_organize_foldl allMethods seeds cm order₂ []
  unfold organizeBasicResults
  refine h1.trans (List.Perm.trans ?_ h2.symm)
  simpa using hperm.filterMap (snippetFor allMethods seeds cm)

/-- First seed method of the C9 scenario. -/
def c9M1 : MInfo := ⟨"F.java", "alpha", "C", "", "void alpha() {}", true⟩

/-- Second seed method of the C9 scenario, same file. -/
def c9M2 : MInfo := ⟨"F.java", "beta", "C", "", "void beta() {}", true⟩

/-- Registry of the C9 scenario: two keyword-containing methods in one file. -/
def c9Methods : List (String × MInfo) := [("C.alpha()", c9M1), ("C.beta()", c9M2)]

/-- Both methods are seeds. -/
def c9Seeds : List String := ["C.alpha()", "C.beta()"]

/-- The assembled context of a run that enumerates the retained set in the
given order. -/
def c9Out (order : List String) : String :=
  trim_code_context (organizeBasicResults c9Methods c9Seeds [] order) 1000

/-- C9 counterexample: the same retained set enumerated in two orders (as
two separate processes may do, Python string hashing being seeded per
process) assembles two different context strings — equal-priority snippets
inside one file keep set-iteration order, so the pipeline is not
deterministic across runs. -/
theorem C9_output_depends_on_set_iteration_order :
    List.Perm ["C.alpha()", "C.beta()"] ["C.beta()", "C.alpha()"] ∧
      c9Out ["C.alpha()", "C.beta()"] ≠ c9Out ["C.beta()", "C.alpha()"] := by
  constructor
  · exact List.Perm.swap "C.beta()" "C.alpha()" []
  · decide

/-- Witness for C9 amended: the two enumerations of the concrete
two-element retained set below give permuted flattened results. -/
theorem C9_results_perm_invariant_witness :
    List.Perm
      (resultsFlatten (organizeBasicResults c9Methods c9Seeds []
        ["C.alpha()", "C.beta()"]))
      (resultsFlatten (organizeBasicResults c9Methods c9Seeds []
        ["C.beta()", "C.alpha()"])) :=
  C9_results_perm_invariant c9Methods c9Seeds [] _ _
    (List.Perm.swap "C.beta()" "C.alpha()" [])

/-! ### The 50-method cap and `organize_results_by_relevance`
(optimized_java_extractor.py, lines 298-342 and 431-450) -/

/-- The parsed method record read by the optimized organizer. -/
structure OptMethod where
  file_path : String
  method_name : String
  class_name : String
  package_name : String
  snippet : String
  relevance_score : Nat

/-- `get_qualified_method_name` for the optimized records. -/
def optQualifiedName (m : OptMethod) : String :=
  (if m.package_name = "" then "" else m.package_name ++ ".") ++
    m.class_name ++ "." ++ m.method_name

/-- Descending stable order by `relevance_score`
(`sort(key=..., reverse=True)`). -/
def scoreDesc (a b : String × OptMethod) : Prop :=
  b.2.relevance_score ≤ a.2.relevance_score

instance : DecidableRel scoreDesc := fun _ _ => Nat.decLe _ _

instance : IsTotal (String × OptMethod) scoreDesc :=
  ⟨fun a b => Nat.le_total b.2.relevance_score a.2.relevance_score⟩

instance : IsTrans (String × OptMethod) scoreDesc :=
  ⟨fun _ _ _ h h' => Nat.le_trans h' h⟩

/-- Stage 4 cap of `extract_java_code_blocks_with_cross_references`
(optimized_java_extractor.py, 434-442): when more than 50 methods remain,
keep the 50 with the highest relevance scores. -/
def capMethods (ms : List (String × OptMethod)) : List (String × OptMethod) :=
  if 50 < ms.length then (List.insertionSort scoreDesc ms).take 50 else ms

/-- `methods_by_file[file].append(entry)` grouping (defaultdict order). -/
def addGroup : List (String × List (String × OptMethod)) → String →
    (String × OptMethod) → List (String × List (String × OptMethod))
  | [], fp, e => [(fp, [e])]
  | g :: rest, fp, e =>
    if g.1 = fp then (g.1, g.2 ++ [e]) :: rest else g :: addGroup rest fp e

/-- Group the retained methods by file in first-seen order. -/
def groupByFile (ms : List (String × OptMethod)) :
    List (String × List (String × OptMethod)) :=
  ms.foldl (fun gs e => addGroup gs e.2.file_path e) []

/-- Score-threshold categories of `organize_results_by_relevance`. -/
def optCategory (score : Nat) : String :=
  if 50 ≤ score then "HIGH"
  else if 30 ≤ score then "MEDIUM"
  else if 15 ≤ score then "LOW"
  else "RELATED"

/-- Annotated snippet of `organize_results_by_relevance`. -/
def annotateOpt (fp : String) (e : String × OptMethod) : String :=
  let score := e.2.relevance_score
  "// [" ++ optCategory score ++ "] Method: " ++ optQualifiedName e.2 ++
    " [Score: " ++ toString score ++ "]" ++
    (if 50 ≤ score then " [PRIMARY_KEYWORD_IN_METHOD_NAME]"
     else if 30 ≤ score then " [KEYWORD_MATCH]"
     else "") ++
    "\n// File: " ++ fp ++ "\n" ++ e.2.snippet

/-- `organize_results_by_relevance` (optimized_java_extractor.py, 298-342). -/
def organize_results_by_relevance (ms : List (String × OptMethod)) :
    List (String × List String) :=
  (groupByFile ms).map (fun g =>
    (g.1, (List.insertionSort scoreDesc g.2).map (annotateOpt g.1)))

/-- Total number of snippets across all files of a results dict. -/
def totalSnippets (res : List (String × List String)) : Nat :=
  (res.map (fun p => p.2.length)).sum

/-- Total number of grouped methods. -/
def groupSize (gs : List (String × List (String × OptMethod))) : Nat :=
  (gs.map (fun g => g.2.length)).sum

theorem groupSize_addGroup (gs : List (String × List (String × OptMethod)))
    (fp : String) (e : String × OptMethod) :
    groupSize (addGroup gs fp e) = groupSize gs + 1 := by
  induction gs with
  | nil => simp [addGroup, groupSize]
  | cons g rest ih =>
    by_cases hfp : g.1 = fp
    · simp [addGroup, hfp, groupSize]
      omega
    · simp only [addGroup, hfp, if_false, groupSize, List.map_cons, List.sum_cons] at ih ⊢
      omega

theorem groupSize_groupByFile (ms : List (String × OptMethod)) :
    groupSize (groupByFile ms) = ms.length := by
  suffices h : ∀ (ms : List (String × OptMethod)) gs,
      groupSize (ms.foldl (fun gs e => addGroup gs e.2.file_path e) gs) =
        groupSize gs + ms.length by
    simpa [groupByFile, groupSize] using h ms []
  intro ms
  induction ms with
  | nil => intro gs; simp
  | cons e rest ih =>
    intro gs
    rw [List.foldl_cons, ih, groupSize_addGroup]
    simp
    omega

theorem totalSnippets_organize (ms : List (String × OptMethod)) :
    totalSnippets (organize_results_by_relevance ms) = ms.length := by
  unfold totalSnippets organize_results_by_relevance
  rw [← groupSize_groupByFile ms]
  unfold groupSize
  rw [List.map_map]
  congr 1
  apply List.map_congr_left
  intro g _
  simp [List.length_insertionSort]

/-- C10: the optimized extraction's retained result is capped at 50 methods
in total, and when more than 50 candidates qualify the kept set is exactly
the 50 highest-scoring ones: the cap keeps a permutation-complement split
of the candidates in which every kept method scores at least every dropped
one. -/
theorem C10_results_capped_at_50 :
    (∀ ms : List (String × OptMethod),
      totalSnippets (organize_results_by_relevance (capMethods ms)) ≤ 50) ∧
    (∀ ms : List (String × OptMethod), 50 < ms.length →
      capMethods ms = (List.insertionSort scoreDesc ms).take 50 ∧
      List.Perm ((List.insertionSort scoreDesc ms).take 50 ++
        (List.insertionSort scoreDesc ms).drop 50) ms ∧
      ∀ x ∈ (List.insertionSort scoreDesc ms).take 50,
        ∀ y ∈ (List.insertionSort scoreDesc ms).drop 50,
          y.2.relevance_score ≤ x.2.relevance_score) := by
  constructor
  · intro ms
    rw [totalSnippets_organize]
    unfold capMethods
    split
    · rw [List.length_take, List.length_insertionSort]
      omega
    · omega
  · intro ms hlen
    refine ⟨by simp [capMethods, hlen], ?_, ?_⟩
    · rw [List.take_append_drop]
      exact List.perm_insertionSort scoreDesc ms
    · have hsorted : List.Sorted scoreDesc (List.insertionSort scoreDesc ms) :=
        List.sorted_insertionSort scoreDesc ms
      rw [← List.take_append_drop 50 (List.insertionSort scoreDesc ms)] at hsorted
      have := (List.pairwise_append.mp hsorted).2.2
      intro x hx y hy
      exact this x hx y hy

/-- One candidate method of the C10 witness registry. -/
def c10Method (i : Nat) : String × OptMethod :=
  (toString i, ⟨"F.java", "m" ++ toString i, "C", "", "{}", i⟩)

/-- A registry of 51 candidates, exceeding the cap by one. -/
def c10Input : List (String × OptMethod) := (List.range 51).map c10Method

/-- Witness for C10: on the 51-candidate registry the organized result has
at most 50 snippets and the cap keeps the top-50 slice of the sorted list. -/
theorem C10_results_capped_at_50_witness :
    totalSnippets (organize_results_by_relevance (capMethods c10Input)) ≤ 50 ∧
      capMethods c10Input = (List.insertionSort scoreDesc c10Input).take 50 :=
  ⟨C10_results_capped_at_50.1 c10Input,
    (C10_results_capped_at_50.2 c10Input (by simp [c10Input])).1⟩

end JavaGen
